import Mathlib

/-!
Verification of the SwiftSLOUploader segment-upload engine.

This file gives a shallow embedding, in Lean, of the core logic of
`swiftslouploader/swiftslouploader.py` (and, where it differs, of the
legacy `slo_upload.py`): the segmentation planner (`check_segment_size`),
the recovery log and its resume-point computation
(`update_segment_counter`), the manifest assembler
(`create_manifest_file` / `create_manifest_entry`), segment
materialization (`create_segment`), the session-confirmation logic
(`get_user_confirmation`), the commit phase of `slo_upload`, and a
small-step model of the bounded worker pool in `create_segments`.

Python strings are modelled as `List Char`; machine file sizes are `Nat`
(the Python code manipulates unbounded ints); the float arithmetic in the
planner is modelled exactly (the quantities involved are integral).
-/

namespace SLO

/-- Prepend a character to the first part of a split result. -/
def consHead (c : Char) : List (List Char) → List (List Char)
  | [] => [[c]]
  | f :: r => (c :: f) :: r

/-- Python `str.split(":")` on a list of characters: splits at every
colon, keeping empty parts, always returning at least one part. -/
def splitOnColon : List Char → List (List Char)
  | [] => [[]]
  | c :: rest =>
    if c = ':' then [] :: splitOnColon rest
    else consHead c (splitOnColon rest)

/-- The decimal digit character for `d` (meaningful for `d < 10`). -/
def digitChar (d : Nat) : Char := Char.ofNat (48 + d)

/-- Decimal representation of a natural number, most significant digit
first, as produced by Python `"%d" % n`. -/
def decRep (n : Nat) : List Char :=
  if n < 10 then [digitChar n]
  else decRep (n / 10) ++ [digitChar (n % 10)]
termination_by n
decreasing_by exact Nat.div_lt_self (by omega) (by omega)

/-- Python `"%04d" % n`: the decimal representation left-padded with
zeros to at least four characters.  This is how segment names are built
in `create_segments` (swiftslouploader.py line 184). -/
def pad4 (n : Nat) : List Char :=
  List.replicate (4 - (decRep n).length) '0' ++ decRep n

/-- Accumulator loop for decimal parsing. -/
def parseNatAux : Nat → List Char → Nat
  | acc, [] => acc
  | acc, c :: rest => parseNatAux (acc * 10 + (c.toNat - 48)) rest

/-- Python whitespace characters stripped by `int()`. -/
def isPySpace (c : Char) : Bool := c = ' ' || c = '\n' || c = '\t' || c = '\r'

/-- Python `int(s)` on a string of decimal digits, possibly surrounded
by whitespace (so `int("5\n") = 5`). -/
def pyInt (s : List Char) : Nat :=
  parseNatAux 0 (((s.dropWhile isPySpace).reverse.dropWhile isPySpace).reverse)

/-- Python string strict comparison `s < t`: lexicographic by character
code points. -/
def charListLt : List Char → List Char → Bool
  | _, [] => false
  | [], _ :: _ => true
  | x :: xs, y :: ys => if x < y then true else if y < x then false else charListLt xs ys

/-- Python string comparison `s <= t`: lexicographic by character code
points; this is the order used by `sorted(..., key=lambda k: k['name'])`. -/
def charListLe : List Char → List Char → Bool
  | [], _ => true
  | _ :: _, [] => false
  | x :: xs, y :: ys => if x < y then true else if y < x then false else charListLe xs ys

/-- One successfully logged segment, as recorded by `log_segment`:
sequence number (written as the zero-padded segment name), swift
destination path, md5 checksum, and the byte size exactly as the decimal
string that Python's format call produces. -/
structure RecoveryRecord where
  seq : Nat
  dest : List Char
  etag : List Char
  size : List Char
deriving DecidableEq, Repr

/-- The line `log_segment` appends to `upload_cache`
(swiftslouploader.py lines 452-457): the format string
is segment name, destination, checksum and size joined by colons, with a
trailing newline. -/
def logLine (r : RecoveryRecord) : List Char :=
  pad4 r.seq ++ ':' :: (r.dest ++ ':' :: (r.etag ++ ':' :: (r.size ++ ['\n'])))

/-- Ceiling division on naturals: `math.ceil(a / b)` for positive `b`
and integral operands. -/
def cdiv (a b : Nat) : Nat := (a + b - 1) / b

/-- The segmentation planner of swiftslouploader.py (lines 286-303):
`total_segments = ceil(file_size / (segment_size * 1048576))`; if that
exceeds 1000, recompute `segment_size` as
`ceil(ceil(file_size / 1000) / 1048576)` megabytes and recompute the
total.  Returns `(file_size, total_segments, segment_size)`.
`os.stat(filename).st_size` is modelled by taking the file size as
input. -/
def check_segment_size (file_size segment_size : Nat) : Nat × Nat × Nat :=
  let total_segments := cdiv file_size (segment_size * 1048576)
  if total_segments > 1000 then
    let segment_size_bytes := cdiv file_size 1000
    let segment_size2 := cdiv segment_size_bytes 1048576
    let total_segments2 := cdiv file_size (segment_size2 * 1048576)
    (file_size, total_segments2, segment_size2)
  else
    (file_size, total_segments, segment_size)

/-- The legacy planner of slo_upload.py (lines 116-132).  It differs
from `check_segment_size` in the recomputation step:
`segment_size = int(math.ceil(float(file_size)/1000.0) / 1048576.0)`
truncates (floors) the megabyte conversion instead of taking its
ceiling. -/
def slo_check_segment_size (file_size segment_size : Nat) : Nat × Nat × Nat :=
  let total_segments := cdiv file_size (segment_size * 1048576)
  if total_segments > 1000 then
    let segment_size2 := cdiv file_size 1000 / 1048576
    let total_segments2 := cdiv file_size (segment_size2 * 1048576)
    (file_size, total_segments2, segment_size2)
  else
    (file_size, total_segments, segment_size)

/-- The pairwise walk of `update_segment_counter` (lines 321-327): given
the previous element and the remaining sorted list, return
`previous + 1` at the first position where the successor is not
`previous + 1`, and `last + 1` if the walk runs off the end. -/
def scanGap : Nat → List Nat → Nat
  | prev, [] => prev + 1
  | prev, x :: rest => if prev ≠ x - 1 then prev + 1 else scanGap x rest

/-- The resume-point computation `update_segment_counter`
(swiftslouploader.py lines 306-327): parse the first colon-separated
field of every `upload_cache` line as an int, sort ascending, return 1
for an empty log, otherwise walk pairwise for the first gap. -/
def update_segment_counter (cacheLines : List (List Char)) : Nat :=
  let segments := cacheLines.map (fun line => pyInt ((splitOnColon line).getD 0 []))
  let sorted := List.insertionSort (fun a b => a ≤ b) segments
  match sorted with
  | [] => 1
  | x :: rest => scanGap x rest

/-- The local on-disk artifacts of a run: the `upload_cache` recovery
log, the assembled `manifest.json`, the temp directory itself, and the
number of leftover temp segment files (all of which live inside the temp
directory). -/
structure LocalState where
  uploadCache : Bool
  manifestFile : Bool
  tempDir : Bool
  tempSegmentCount : Nat
deriving DecidableEq, Repr

/-- The commit upload `upload_manifest_file` (lines 497-518): the PUT
either succeeds or raises; the exception is caught inside the function,
which only echoes a message.  It changes no local file state; the
returned boolean is the reported outcome, which the caller ignores. -/
def upload_manifest_file (commitOk : Bool) (st : LocalState) : LocalState × Bool :=
  (st, commitOk)

/-- The effect of `delete_directory(temp_directory)`
(`shutil.rmtree`): the temp directory and everything inside it -
recovery log, manifest file and leftover segment files - are removed. -/
def delete_directory (_st : LocalState) : LocalState :=
  { uploadCache := false, manifestFile := false, tempDir := false, tempSegmentCount := 0 }

/-- The tail of `slo_upload` (lines 90-94): call `upload_manifest_file`
and then unconditionally `delete_directory(temp_directory)` - the
commit outcome is never consulted. -/
def slo_upload_commit_phase (commitOk : Bool) (st : LocalState) : LocalState :=
  let r := upload_manifest_file commitOk st
  delete_directory r.1

/-- Python `filename.rsplit("/", 1)[-1]`: everything after the last
slash, or the whole string when it has none. -/
def afterLast (c : Char) (s : List Char) : List Char :=
  (s.reverse.takeWhile (fun x => x ≠ c)).reverse

/-- Python `s.rsplit(c, 1)[-2]` when `c` occurs in `s`: everything
before the last occurrence of `c`.  When `c` does not occur, Python
`rsplit(c, 1)[0]` is the whole string, which this returns as well. -/
def beforeLast (c : Char) (s : List Char) : List Char :=
  match s.reverse.dropWhile (fun x => x ≠ c) with
  | [] => s
  | _ :: rest => rest.reverse

/-- `get_filename` (lines 210-215): from the first `upload_cache` line,
take the destination path (second colon-field), keep the part before the
last slash (the `<name>_segments` pseudo folder) and strip the trailing
`_segments` suffix at the last underscore, recovering the recorded
source file name. -/
def get_filename (cacheLines : List (List Char)) : List Char :=
  match cacheLines with
  | [] => []
  | line :: _ => beforeLast '_' (beforeLast '/' ((splitOnColon line).getD 1 []))

/-- `get_segment_size` (lines 218-224): from the first `upload_cache`
line, parse the stored byte size (fourth colon-field) and integer-divide
by 1048576 to recover the recorded segment size in MB. -/
def get_segment_size (cacheLines : List (List Char)) : Nat :=
  match cacheLines with
  | [] => 0
  | line :: _ => pyInt ((splitOnColon line).getD 3 []) / 1048576

/-- The arguments of the current run that `get_user_confirmation` reads
and mutates: source path, segment size in MB, and the resume counter
computed from the cache. -/
structure SessionArgs where
  filename : List Char
  segment_size : Nat
  segment_counter : Nat
deriving DecidableEq, Repr

/-- Result of the confirmation step: the possibly-updated arguments and
whether the temp directory (with the recovery log) was deleted. -/
structure ConfirmResult where
  args : SessionArgs
  tempDirDeleted : Bool
deriving DecidableEq, Repr

/-- `get_user_confirmation` (lines 227-264), restricted to its effect on
local state and session arguments.  When a resume is detected
(`segment_counter > 1`): if the recorded filename differs from the
current basename, the temp directory is deleted but the counter is left
unchanged; if the user declines, the directory is deleted and the
counter reset to 1; if the user accepts and the recorded segment size
differs, the recorded size is silently adopted.  The final yes/no
proceed prompt either exits the program or changes nothing, so it is not
modelled. -/
def get_user_confirmation (cacheLines : List (List Char)) (continueAnswer : Bool)
    (a : SessionArgs) : ConfirmResult :=
  if a.segment_counter > 1 then
    if get_filename cacheLines ≠ afterLast '/' a.filename then
      { args := a, tempDirDeleted := true }
    else if continueAnswer = false then
      { args := { a with segment_counter := 1 }, tempDirDeleted := true }
    else if a.segment_size ≠ get_segment_size cacheLines then
      { args := { a with segment_size := get_segment_size cacheLines },
        tempDirDeleted := false }
    else
      { args := a, tempDirDeleted := false }
  else
    { args := a, tempDirDeleted := false }

/-- Python `os.path.join(a, b)` for POSIX paths, as used for manifest
entry paths. -/
def pathJoin (a b : List Char) : List Char :=
  if b.head? = some '/' then b
  else if a = [] then b
  else if a.getLast? = some '/' then a ++ b
  else a ++ '/' :: b

/-- The dictionary built by `create_manifest_entry` (lines 483-494),
before `create_manifest_file` deletes its `name` key. -/
structure ManifestEntryN where
  name : List Char
  path : List Char
  etag : List Char
  size_bytes : List Char
deriving DecidableEq, Repr

/-- A final manifest entry: destination path, checksum, and the byte
size exactly as the string taken from the recovery log. -/
structure ManifestEntry where
  path : List Char
  etag : List Char
  size_bytes : List Char
deriving DecidableEq, Repr

/-- `create_manifest_entry` (lines 483-494): split the cache line on
colons; `name` is the first part, `path` joins the segments container
with the second part, `etag` is the third, and `size_bytes` is the
fourth part verbatim (the line's trailing newline included - the code
never strips or parses it). -/
def create_manifest_entry (line container : List Char) : ManifestEntryN :=
  let parts := splitOnColon line
  { name := parts.getD 0 [],
    path := pathJoin container (parts.getD 1 []),
    etag := parts.getD 2 [],
    size_bytes := parts.getD 3 [] }

/-- Deleting the `name` key from an entry (`del entry["name"]`). -/
def dropName (e : ManifestEntryN) : ManifestEntry :=
  { path := e.path, etag := e.etag, size_bytes := e.size_bytes }

/-- `create_manifest_file` (lines 460-480): map every `upload_cache`
line to an entry, sort by the `name` key with Python string comparison,
delete the `name` keys, and serialize the result in order. -/
def create_manifest_file (cacheLines : List (List Char)) (container : List Char) :
    List ManifestEntry :=
  let manifest := cacheLines.map (fun line => create_manifest_entry line container)
  let sorted := List.insertionSort (fun a b => charListLe a.name b.name = true) manifest
  sorted.map dropName

/-- Derived form of the entry `create_manifest_entry` builds for the
cache line that `log_segment` wrote for record `r` (established by
`create_manifest_entry_logLine` below): the name is the zero-padded
sequence, and `size_bytes` is the stored size string with the line's
trailing newline still attached. -/
def manifestEntryN (container : List Char) (r : RecoveryRecord) : ManifestEntryN :=
  { name := pad4 r.seq,
    path := pathJoin container r.dest,
    etag := r.etag,
    size_bytes := r.size ++ ['\n'] }

/-- The final manifest entry for record `r`: `manifestEntryN` with the
`name` key deleted. -/
def manifestEntryOf (container : List Char) (r : RecoveryRecord) : ManifestEntry :=
  dropName (manifestEntryN container r)

/-- The read loop of `create_segment` (lines 427-432): `iters`
iterations of reading at most 1 MB from the current position and
appending it to the segment; reads past end of file return nothing. -/
def readLoop {α : Type} : List α → Nat → List α
  | _, 0 => []
  | src, n + 1 => src.take 1048576 ++ readLoop (src.drop 1048576) n

/-- `create_segment` (lines 414-434): seek the source file to
`segment_size * 1048576 * (seq - 1)` and run the 1 MB read loop
`segment_size` times; the result is the byte content of the local temp
segment file. -/
def create_segment {α : Type} (file : List α) (segment_size seq : Nat) : List α :=
  readLoop (file.drop (segment_size * 1048576 * (seq - 1))) segment_size

/-- Modelled from the spec (claim C7): the byte range
`[seq * size, seq * size + size)` of the source file that the spec's
data model assigns to the segment with 1-based sequence number `seq`. -/
def segmentRangeSpec {α : Type} (file : List α) (size seq : Nat) : List α :=
  (file.drop (seq * size)).take size

/-- Lifecycle phase of one `process_segment` worker (lines 397-411):
launched but segment file not yet written; segment file on disk
(creation through upload and logging); file deleted and worker done. -/
inductive WPhase where
  | fresh
  | hasFile
  | done
deriving DecidableEq, Repr

/-- One worker process: the segment sequence number it owns and its
lifecycle phase. -/
structure Worker where
  seq : Nat
  phase : WPhase
deriving DecidableEq, Repr

/-- State of the `create_segments` loop (lines 157-199): the next
sequence number to launch (`segment_counter`) and the list of
launched-but-not-joined workers, newest first (`args["processes"]`). -/
structure PoolSt where
  nextSeq : Nat
  pool : List Worker
deriving DecidableEq, Repr

/-- Local scratch bytes currently held by one worker: the length of the
temp segment file while it exists, zero before creation and after
deletion. -/
def workerDisk (segment_size : Nat) (file : List Nat) (w : Worker) : Nat :=
  match w.phase with
  | WPhase.hasFile => (create_segment file segment_size w.seq).length
  | _ => 0

/-- Total local scratch disk usage of a pool state. -/
def diskUsage (segment_size : Nat) (file : List Nat) (st : PoolSt) : Nat :=
  (st.pool.map (workerDisk segment_size file)).sum

/-- Interleaved small-step semantics of `create_segments` together with
its workers.  The main loop launches a worker only when the pool holds
fewer than `C` processes (lines 180-182 pop-and-join until below the
limit before the launch at line 193); `join_processes` and the in-loop
reclamation both wait on the process at the end of the list, which can
only complete once it has passed `delete_file` and exited; each worker
independently materializes its segment file and later deletes it. -/
inductive Step (C segment_size total : Nat) (file : List Nat) : PoolSt → PoolSt → Prop where
  | launch (st : PoolSt) (hlen : st.pool.length < C) (hseq : st.nextSeq ≤ total) :
      Step C segment_size total file st
        { nextSeq := st.nextSeq + 1,
          pool := { seq := st.nextSeq, phase := WPhase.fresh } :: st.pool }
  | materialize (st : PoolSt) (pre post : List Worker) (s : Nat)
      (hpool : st.pool = pre ++ { seq := s, phase := WPhase.fresh } :: post) :
      Step C segment_size total file st
        { nextSeq := st.nextSeq,
          pool := pre ++ { seq := s, phase := WPhase.hasFile } :: post }
  | purge (st : PoolSt) (pre post : List Worker) (s : Nat)
      (hpool : st.pool = pre ++ { seq := s, phase := WPhase.hasFile } :: post) :
      Step C segment_size total file st
        { nextSeq := st.nextSeq,
          pool := pre ++ { seq := s, phase := WPhase.done } :: post }
  | joinDone (st : PoolSt) (rest : List Worker) (w : Worker)
      (hpool : st.pool = rest ++ [w]) (hph : w.phase = WPhase.done) :
      Step C segment_size total file st { nextSeq := st.nextSeq, pool := rest }

/-- States reachable during one run of `create_segments`, starting from
an empty pool at any resume counter. -/
inductive Reachable (C segment_size total : Nat) (file : List Nat) : PoolSt → Prop where
  | init (start : Nat) : Reachable C segment_size total file { nextSeq := start, pool := [] }
  | step (st st2 : PoolSt) (h1 : Reachable C segment_size total file st)
      (h2 : Step C segment_size total file st st2) :
      Reachable C segment_size total file st2

/-- C1: the resume-point computation agrees with the spec on an empty
log and on the log 1,2,4 (yielding 3), but on the log 2,3 - where the
spec requires the first sequence number not present contiguously from 1,
namely 1 - the code returns 4, silently skipping the never-uploaded
segment 1. -/
theorem c1_resume_point_on_sample_logs :
    update_segment_counter [] = 1
    ∧ update_segment_counter
        [("0001:f_segments/0001:aa:8\n").toList,
         ("0002:f_segments/0002:ab:8\n").toList,
         ("0004:f_segments/0004:ac:8\n").toList] = 3
    ∧ update_segment_counter
        [("0002:f_segments/0002:aa:8\n").toList,
         ("0003:f_segments/0003:ab:8\n").toList] = 4 := by
  decide

/-- C3: the legacy planner of slo_upload.py, evaluated at
`file_size = 1048576001` bytes and `segment_size = 1` MB, keeps
`segment_size = 1` (the megabyte conversion truncates 1048577/1048576 to
1) and returns `total_segments = 1001`, violating the 1000-segment limit
that both the claim and the function's own docstring require.  The
packaged planner `check_segment_size` returns 501 segments of 2 MB on
the same input. -/
theorem c3_legacy_planner_exceeds_segment_limit :
    slo_check_segment_size 1048576001 1 = (1048576001, 1001, 1)
    ∧ 1000 < (slo_check_segment_size 1048576001 1).2.1
    ∧ check_segment_size 1048576001 1 = (1048576001, 501, 2) := by
  decide

/-- C4: when the manifest commit fails, `upload_manifest_file` swallows
the exception and `slo_upload` still runs `delete_directory`, so the
recovery log, the manifest file, the temp directory and the leftover
segment files are all destroyed - the claim requires them to be left
intact on failure. -/
theorem c4_commit_failure_still_deletes_local_state :
    slo_upload_commit_phase false
        { uploadCache := true, manifestFile := true, tempDir := true,
          tempSegmentCount := 2 }
      = { uploadCache := false, manifestFile := false, tempDir := false,
          tempSegmentCount := 0 }
    ∧ (upload_manifest_file false
        { uploadCache := true, manifestFile := true, tempDir := true,
          tempSegmentCount := 2 }).2 = false := by
  decide

/-- C5: on a filename mismatch (cache recorded `other.bin`, current run
uploads `mine.bin`) the code deletes the cache directory but leaves
`segment_counter` at 4 instead of restarting from 1; and on a segment
size mismatch (cache recorded 1 MB, current run requests 5 MB) the
foreign log is not discarded at all - the recorded size is silently
adopted and the counter stays at 4. -/
theorem c5_session_mismatch_not_restarted :
    get_user_confirmation [("0001:other.bin_segments/0001:aa:1048576\n").toList] true
        { filename := ("mine.bin").toList, segment_size := 1, segment_counter := 4 }
      = { args := { filename := ("mine.bin").toList, segment_size := 1,
                    segment_counter := 4 },
          tempDirDeleted := true }
    ∧ get_user_confirmation [("0001:other.bin_segments/0001:aa:1048576\n").toList] true
        { filename := ("other.bin").toList, segment_size := 5, segment_counter := 4 }
      = { args := { filename := ("other.bin").toList, segment_size := 1,
                    segment_counter := 4 },
          tempDirDeleted := false } := by
  decide

/-- Ceiling division bound: `cdiv a b ≤ k` exactly when `a ≤ k * b`. -/
theorem cdiv_le_iff {a b k : Nat} (hb : 0 < b) : cdiv a b ≤ k ↔ a ≤ k * b := by
  unfold cdiv
  rw [Nat.div_le_iff_le_mul_add_pred hb]
  have hcomm : k * b = b * k := Nat.mul_comm k b
  omega

/-- The 1 MB read loop collects exactly the next `n * 1048576`
characters of the source. -/
theorem readLoop_eq {α : Type} (src : List α) (n : Nat) :
    readLoop src n = src.take (n * 1048576) := by
  induction n generalizing src with
  | zero => simp [readLoop]
  | succ m ih =>
    rw [readLoop, ih, show (m + 1) * 1048576 = 1048576 + m * 1048576 by ring,
      List.take_add]

/-- A materialized segment is the `segment_size * 1048576`-byte slice of
the source file starting at offset `segment_size * 1048576 * (seq - 1)`. -/
theorem create_segment_eq {α : Type} (file : List α) (S seq : Nat) :
    create_segment file S seq
      = (file.drop (S * 1048576 * (seq - 1))).take (S * 1048576) := by
  unfold create_segment
  rw [readLoop_eq]

/-- C7 counterexample: for the first segment (`seq = 1`, segment size
1 MB) of a 3-byte file, the code materializes the bytes at offset 0 -
the whole file - while the byte range `[seq * size, seq * size + size)`
claimed by the spec starts at offset 1048576 and is empty. -/
theorem c7_counterexample_first_segment :
    create_segment [10, 20, 30] 1 1 = [10, 20, 30]
    ∧ segmentRangeSpec [10, 20, 30] (1 * 1048576) 1 = []
    ∧ ([10, 20, 30] : List Nat) ≠ [] := by
  refine ⟨?_, by decide, by decide⟩
  rw [create_segment_eq]
  decide

/-- C7 amended: the byte range of the segment with 1-based sequence
number `seq` and segment byte size `size = segment_size * 1048576` is
`[(seq - 1) * size, (seq - 1) * size + size)` - the offset uses
`seq - 1`, not `seq`; the last segment may be shorter because `take`
stops at end of file. -/
theorem c7_amended_segment_byte_range {α : Type} (file : List α) (S seq : Nat) :
    create_segment file S seq
      = (file.drop (S * 1048576 * (seq - 1))).take (S * 1048576) :=
  create_segment_eq file S seq

/-- Concatenating the materialized segments `1..t` yields the first
`t * segment_size * 1048576` bytes of the source file. -/
theorem join_segments_take {α : Type} (file : List α) (S : Nat) (t : Nat) :
    ((List.range' 1 t).map (fun i => create_segment file S i)).flatten
      = file.take (t * (S * 1048576)) := by
  induction t with
  | zero => simp
  | succ m ih =>
    rw [List.range'_concat, List.map_append, List.flatten_append, ih]
    simp only [List.map_cons, List.map_nil, List.flatten_cons, List.flatten_nil,
      List.append_nil, create_segment_eq]
    rw [show 1 + 1 * m - 1 = m by omega,
      show (m + 1) * (S * 1048576) = m * (S * 1048576) + S * 1048576 by ring,
      List.take_add]
    rw [show S * 1048576 * m = m * (S * 1048576) by ring]

/-- C6: a materialized segment holds exactly
`min (segment_size * 1048576, file_size - offset)` bytes taken from the
source at offset `segment_size * 1048576 * (seq - 1)`, and concatenating
the segments `1..total` in sequence order reproduces the source file
byte-for-byte. -/
theorem c6_segment_bytes_and_concat {α : Type} (file : List α) (S seq total : Nat)
    (hS : 1 ≤ S) (_hseq : 1 ≤ seq)
    (htotal : total = cdiv file.length (S * 1048576)) :
    (create_segment file S seq).length
        = min (S * 1048576) (file.length - S * 1048576 * (seq - 1))
    ∧ ((List.range' 1 total).map (fun i => create_segment file S i)).flatten = file := by
  constructor
  · rw [create_segment_eq]
    simp [List.length_take, List.length_drop]
  · rw [join_segments_take, htotal]
    apply List.take_of_length_le
    have hb : 0 < S * 1048576 := by positivity
    have := (cdiv_le_iff (a := file.length) (k := cdiv file.length (S * 1048576)) hb).mp
      (Nat.le_refl _)
    omega

/-- Witness for C6 at a concrete 3-byte file with 1 MB segments: one
segment whose bytes are the whole file. -/
theorem c6_segment_bytes_and_concat_witness :
    1 ≤ 1 ∧ 1 = cdiv ([5, 6, 7] : List Nat).length (1 * 1048576)
    ∧ ((create_segment ([5, 6, 7] : List Nat) 1 1).length
        = min (1 * 1048576) (([5, 6, 7] : List Nat).length - 1 * 1048576 * (1 - 1))
      ∧ ((List.range' 1 1).map
          (fun i => create_segment ([5, 6, 7] : List Nat) 1 i)).flatten = [5, 6, 7]) :=
  ⟨by decide, by decide,
    c6_segment_bytes_and_concat ([5, 6, 7] : List Nat) 1 1 1 (by decide) (by decide)
      (by decide)⟩

/-- Every worker holds at most `segment_size * 1048576` bytes of local
scratch space at any time. -/
theorem workerDisk_le (S : Nat) (file : List Nat) (w : Worker) :
    workerDisk S file w ≤ S * 1048576 := by
  unfold workerDisk
  cases w.phase with
  | hasFile =>
    rw [create_segment_eq]
    simp [List.length_take]
  | fresh => exact Nat.zero_le _
  | done => exact Nat.zero_le _

/-- A list of naturals each at most `M` sums to at most `length * M`. -/
theorem sum_le_length_mul (l : List Nat) (M : Nat) (h : ∀ x ∈ l, x ≤ M) :
    l.sum ≤ l.length * M := by
  induction l with
  | nil => simp
  | cons x xs ih =>
    have hx := h x (by simp)
    have hxs := ih (fun y hy => h y (by simp [hy]))
    simp only [List.sum_cons, List.length_cons]
    calc x + xs.sum ≤ M + xs.length * M := Nat.add_le_add hx hxs
      _ = (xs.length + 1) * M := by ring

/-- Invariant of the worker pool: the number of launched-but-not-joined
processes never exceeds the configured concurrency. -/
theorem reachable_pool_length_le (C S total : Nat) (file : List Nat) (st : PoolSt)
    (hre : Reachable C S total file st) : st.pool.length ≤ C := by
  induction hre with
  | init start => simp
  | step st1 st2 h1 h2 ih =>
    cases h2 with
    | launch hlen hseq => simpa using hlen
    | materialize pre post s hpool =>
      rw [hpool] at ih
      simpa using ih
    | purge pre post s hpool =>
      rw [hpool] at ih
      simpa using ih
    | joinDone rest w hpool hph =>
      rw [hpool] at ih
      simp at ih ⊢
      omega

/-- C8: in every reachable state of a run, at most `C` workers are
launched and not yet joined, local scratch usage is bounded by
`C * segment_size * 1048576` bytes, and any step that grows the pool is
a launch, which fires only when the pool is strictly below `C`. -/
theorem c8_pool_and_disk_bounded (C S total : Nat) (file : List Nat) (st st2 : PoolSt)
    (hre : Reachable C S total file st) (hstep : Step C S total file st st2) :
    st.pool.length ≤ C
    ∧ diskUsage S file st ≤ C * (S * 1048576)
    ∧ (st2.pool.length = st.pool.length + 1 → st.pool.length < C) := by
  have hlen := reachable_pool_length_le C S total file st hre
  refine ⟨hlen, ?_, ?_⟩
  · have hsum : (st.pool.map (workerDisk S file)).sum
        ≤ (st.pool.map (workerDisk S file)).length * (S * 1048576) := by
      apply sum_le_length_mul
      intro x hx
      rcases List.mem_map.mp hx with ⟨w, _, rfl⟩
      exact workerDisk_le S file w
    have : diskUsage S file st ≤ st.pool.length * (S * 1048576) := by
      simpa [diskUsage] using hsum
    calc diskUsage S file st ≤ st.pool.length * (S * 1048576) := this
      _ ≤ C * (S * 1048576) := Nat.mul_le_mul_right _ hlen
  · intro hgrow
    cases hstep with
    | launch hl hs => exact hl
    | materialize pre post s hpool =>
      rw [hpool] at hgrow
      simp at hgrow
    | purge pre post s hpool =>
      rw [hpool] at hgrow
      simp at hgrow
    | joinDone rest w hpool hph =>
      rw [hpool] at hgrow
      simp at hgrow
      omega

/-- Witness for C8: from the initial empty pool with concurrency 2, the
bounds hold and the first launch is permitted. -/
theorem c8_pool_and_disk_bounded_witness :
    (PoolSt.mk 1 []).pool.length ≤ 2
    ∧ diskUsage 1 [] (PoolSt.mk 1 []) ≤ 2 * (1 * 1048576)
    ∧ ((PoolSt.mk 2 [Worker.mk 1 WPhase.fresh]).pool.length
          = (PoolSt.mk 1 []).pool.length + 1
        → (PoolSt.mk 1 []).pool.length < 2) :=
  c8_pool_and_disk_bounded 2 1 3 [] (PoolSt.mk 1 []) (PoolSt.mk 2 [Worker.mk 1 WPhase.fresh])
    (Reachable.init 1) (Step.launch (PoolSt.mk 1 []) (by decide) (by decide))

/-- Splitting a string that starts with a colon-free part: the part
comes off whole and splitting continues after the colon. -/
theorem splitOnColon_append (a b : List Char) (ha : ':' ∉ a) :
    splitOnColon (a ++ ':' :: b) = a :: splitOnColon b := by
  induction a with
  | nil => simp [splitOnColon]
  | cons c t ih =>
    have hc : c ≠ ':' := fun h => ha (by simp [h])
    have ht : ':' ∉ t := fun h => ha (by simp [h])
    simp only [List.cons_append, splitOnColon, if_neg hc]
    rw [show List.append t (':' :: b) = t ++ ':' :: b from rfl, ih ht]
    rfl

/-- A colon-free string splits into itself alone. -/
theorem splitOnColon_no_colon (a : List Char) (ha : ':' ∉ a) :
    splitOnColon a = [a] := by
  induction a with
  | nil => rfl
  | cons c t ih =>
    have hc : c ≠ ':' := fun h => ha (by simp [h])
    have ht : ':' ∉ t := fun h => ha (by simp [h])
    simp only [splitOnColon, if_neg hc, ih ht, consHead]

/-- Every character of a decimal representation is a digit character. -/
theorem decRep_chars (n : Nat) : ∀ c ∈ decRep n, ∃ d, d < 10 ∧ c = digitChar d := by
  induction n using Nat.strong_induction_on with
  | _ n ih =>
    intro c hc
    rw [decRep] at hc
    by_cases h : n < 10
    · rw [if_pos h] at hc
      exact ⟨n, h, (List.mem_singleton.mp hc).symm ▸ rfl⟩
    · rw [if_neg h] at hc
      rcases List.mem_append.mp hc with h1 | h2
      · exact ih (n / 10) (Nat.div_lt_self (by omega) (by omega)) c h1
      · exact ⟨n % 10, Nat.mod_lt n (by omega), (List.mem_singleton.mp h2)⟩

/-- Digit characters are never the colon delimiter. -/
theorem digitChar_ne_colon : ∀ d, d < 10 → digitChar d ≠ ':' := by decide

/-- Segment names contain no colon, so they survive the colon split. -/
theorem pad4_no_colon (n : Nat) : ':' ∉ pad4 n := by
  unfold pad4
  intro h
  rcases List.mem_append.mp h with h1 | h2
  · have := List.eq_of_mem_replicate h1
    simp at this
  · rcases decRep_chars n ':' h2 with ⟨d, hd, hc⟩
    exact digitChar_ne_colon d hd hc.symm

/-- Splitting the line `log_segment` writes recovers the four recorded
fields, the byte size keeping the trailing newline. -/
theorem splitOnColon_logLine (r : RecoveryRecord) (hd : ':' ∉ r.dest)
    (he : ':' ∉ r.etag) (hs : ':' ∉ r.size) :
    splitOnColon (logLine r) = [pad4 r.seq, r.dest, r.etag, r.size ++ ['\n']] := by
  have hsn : ':' ∉ r.size ++ ['\n'] := by
    intro h
    rcases List.mem_append.mp h with h1 | h2
    · exact hs h1
    · simp at h2
  unfold logLine
  rw [splitOnColon_append _ _ (pad4_no_colon r.seq), splitOnColon_append _ _ hd,
    splitOnColon_append _ _ he, splitOnColon_no_colon _ hsn]

/-- One-digit numbers print as a single digit character. -/
theorem decRep_one {n : Nat} (h : n < 10) : decRep n = [digitChar n] := by
  rw [decRep, if_pos h]

/-- Two-digit numbers print as tens digit then units digit. -/
theorem decRep_two {n : Nat} (h1 : 10 ≤ n) (h2 : n < 100) :
    decRep n = [digitChar (n / 10), digitChar (n % 10)] := by
  rw [decRep, if_neg (by omega), decRep_one (by omega)]
  rfl

/-- Three-digit numbers print as three digit characters. -/
theorem decRep_three {n : Nat} (h1 : 100 ≤ n) (h2 : n < 1000) :
    decRep n = [digitChar (n / 100), digitChar (n / 10 % 10), digitChar (n % 10)] := by
  rw [decRep, if_neg (by omega), decRep_two (by omega) (by omega),
    show n / 10 / 10 = n / 100 by omega]
  rfl

/-- Four-digit numbers print as four digit characters. -/
theorem decRep_four {n : Nat} (h1 : 1000 ≤ n) (h2 : n < 10000) :
    decRep n = [digitChar (n / 1000), digitChar (n / 100 % 10), digitChar (n / 10 % 10),
      digitChar (n % 10)] := by
  rw [decRep, if_neg (by omega), decRep_three (by omega) (by omega),
    show n / 10 / 100 = n / 1000 by omega, show n / 10 / 10 = n / 100 by omega,
    show n / 10 % 10 = n / 10 % 10 from rfl]
  rfl

/-- The zero digit character. -/
theorem digitChar_zero : digitChar 0 = '0' := by decide

/-- For numbers below 10000, the `%04d` segment name is exactly the four
decimal digits, leading zeros included. -/
theorem pad4_eq_digits {n : Nat} (h : n < 10000) :
    pad4 n = [digitChar (n / 1000), digitChar (n / 100 % 10), digitChar (n / 10 % 10),
      digitChar (n % 10)] := by
  unfold pad4
  by_cases h1 : n < 10
  · rw [decRep_one h1, show n / 1000 = 0 by omega, show n / 100 % 10 = 0 by omega,
      show n / 10 % 10 = 0 by omega, show n % 10 = n by omega, digitChar_zero]
    rfl
  · by_cases h2 : n < 100
    · rw [decRep_two (by omega) h2, show n / 1000 = 0 by omega,
        show n / 100 % 10 = 0 by omega, show n / 10 % 10 = n / 10 by omega,
        digitChar_zero]
      rfl
    · by_cases h3 : n < 1000
      · rw [decRep_three (by omega) h3, show n / 1000 = 0 by omega,
          show n / 100 % 10 = n / 100 by omega, digitChar_zero]
        rfl
      · rw [decRep_four (by omega) h]
        rfl

/-- Strict order on digit characters mirrors the order of the digits. -/
theorem digitChar_lt_iff : ∀ a < 10, ∀ b < 10, ((digitChar a < digitChar b) ↔ a < b) := by
  decide

/-- Lexicographic strict comparison of two four-digit strings is the
numeric comparison of their values. -/
theorem charListLt_digits {x3 x2 x1 x0 y3 y2 y1 y0 : Nat}
    (hx3 : x3 < 10) (hx2 : x2 < 10) (hx1 : x1 < 10) (hx0 : x0 < 10)
    (hy3 : y3 < 10) (hy2 : y2 < 10) (hy1 : y1 < 10) (hy0 : y0 < 10) :
    (charListLt [digitChar x3, digitChar x2, digitChar x1, digitChar x0]
        [digitChar y3, digitChar y2, digitChar y1, digitChar y0] = true)
      ↔ x3 * 1000 + x2 * 100 + x1 * 10 + x0 < y3 * 1000 + y2 * 100 + y1 * 10 + y0 := by
  simp only [charListLt,
    digitChar_lt_iff x3 hx3 y3 hy3, digitChar_lt_iff y3 hy3 x3 hx3,
    digitChar_lt_iff x2 hx2 y2 hy2, digitChar_lt_iff y2 hy2 x2 hx2,
    digitChar_lt_iff x1 hx1 y1 hy1, digitChar_lt_iff y1 hy1 x1 hx1,
    digitChar_lt_iff x0 hx0 y0 hy0, digitChar_lt_iff y0 hy0 x0 hx0]
  split_ifs with h1 h2 h3 h4 h5 h6 h7 h8 <;> simp <;> omega

/-- C9 core: for segment numbers below 10000, Python string comparison
of `%04d` names agrees with numeric comparison. -/
theorem charListLt_pad4_iff {a b : Nat} (ha : a < 10000) (hb : b < 10000) :
    (charListLt (pad4 a) (pad4 b) = true) ↔ a < b := by
  rw [pad4_eq_digits ha, pad4_eq_digits hb,
    charListLt_digits (by omega) (by omega) (by omega) (by omega)
      (by omega) (by omega) (by omega) (by omega)]
  omega

/-- Non-strict lexicographic comparison of two four-digit strings is the
numeric comparison of their values. -/
theorem charListLe_digits {x3 x2 x1 x0 y3 y2 y1 y0 : Nat}
    (hx3 : x3 < 10) (hx2 : x2 < 10) (hx1 : x1 < 10) (hx0 : x0 < 10)
    (hy3 : y3 < 10) (hy2 : y2 < 10) (hy1 : y1 < 10) (hy0 : y0 < 10) :
    (charListLe [digitChar x3, digitChar x2, digitChar x1, digitChar x0]
        [digitChar y3, digitChar y2, digitChar y1, digitChar y0] = true)
      ↔ x3 * 1000 + x2 * 100 + x1 * 10 + x0 ≤ y3 * 1000 + y2 * 100 + y1 * 10 + y0 := by
  simp only [charListLe,
    digitChar_lt_iff x3 hx3 y3 hy3, digitChar_lt_iff y3 hy3 x3 hx3,
    digitChar_lt_iff x2 hx2 y2 hy2, digitChar_lt_iff y2 hy2 x2 hx2,
    digitChar_lt_iff x1 hx1 y1 hy1, digitChar_lt_iff y1 hy1 x1 hx1,
    digitChar_lt_iff x0 hx0 y0 hy0, digitChar_lt_iff y0 hy0 x0 hx0]
  split_ifs with h1 h2 h3 h4 h5 h6 h7 h8 <;> simp <;> omega

/-- Non-strict name comparison of `%04d` names agrees with numeric
comparison below 10000. -/
theorem charListLe_pad4_iff {a b : Nat} (ha : a < 10000) (hb : b < 10000) :
    (charListLe (pad4 a) (pad4 b) = true) ↔ a ≤ b := by
  rw [pad4_eq_digits ha, pad4_eq_digits hb,
    charListLe_digits (by omega) (by omega) (by omega) (by omega)
      (by omega) (by omega) (by omega) (by omega)]
  omega

/-- Unfolding equation of the decimal parser on the empty string. -/
theorem parseNatAux_nil (acc : Nat) : parseNatAux acc [] = acc := rfl

/-- Unfolding equation of the decimal parser on one character. -/
theorem parseNatAux_cons (acc : Nat) (c : Char) (rest : List Char) :
    parseNatAux acc (c :: rest) = parseNatAux (acc * 10 + (c.toNat - 48)) rest := rfl

/-- Digit characters decode back to their digit value. -/
theorem digitChar_toNat : ∀ d, d < 10 → (digitChar d).toNat = 48 + d := by decide

/-- Digit characters are not Python whitespace. -/
theorem digitChar_not_space : ∀ d, d < 10 → isPySpace (digitChar d) = false := by decide

/-- Python `int()` recovers the sequence number from a `%04d` segment
name. -/
theorem pyInt_pad4 {n : Nat} (h : n < 10000) : pyInt (pad4 n) = n := by
  have hds : ∀ t : List Char, (∀ c ∈ t, isPySpace c = false)
      → t.dropWhile isPySpace = t := by
    intro t ht
    cases t with
    | nil => rfl
    | cons c r =>
      rw [List.dropWhile_cons, ht c (by simp)]
      simp
  have hnosp : ∀ c ∈ pad4 n, isPySpace c = false := by
    intro c hc
    rw [pad4_eq_digits h] at hc
    simp only [List.mem_cons, List.not_mem_nil, or_false] at hc
    rcases hc with rfl | rfl | rfl | rfl
    · exact digitChar_not_space _ (by omega)
    · exact digitChar_not_space _ (by omega)
    · exact digitChar_not_space _ (by omega)
    · exact digitChar_not_space _ (by omega)
  have h1 : (pad4 n).dropWhile isPySpace = pad4 n := hds _ hnosp
  have h2 : (pad4 n).reverse.dropWhile isPySpace = (pad4 n).reverse := by
    apply hds
    intro c hc
    exact hnosp c (List.mem_reverse.mp hc)
  unfold pyInt
  rw [h1, h2, List.reverse_reverse]
  rw [pad4_eq_digits h]
  rw [parseNatAux_cons, parseNatAux_cons, parseNatAux_cons, parseNatAux_cons,
    parseNatAux_nil]
  rw [digitChar_toNat _ (by omega : n / 1000 < 10),
    digitChar_toNat _ (by omega : n / 100 % 10 < 10),
    digitChar_toNat _ (by omega : n / 10 % 10 < 10),
    digitChar_toNat _ (by omega : n % 10 < 10)]
  omega

/-- Python string comparison is total. -/
theorem charListLe_total : ∀ a b : List Char, charListLe a b = true ∨ charListLe b a = true := by
  intro a
  induction a with
  | nil => intro b; left; rfl
  | cons x xs ih =>
    intro b
    cases b with
    | nil => right; rfl
    | cons y ys =>
      simp only [charListLe]
      rcases lt_trichotomy x y with h | h | h
      · left
        rw [if_pos h]
      · subst h
        simp only [if_neg (lt_irrefl x)]
        exact ih ys
      · right
        rw [if_pos h]

/-- Python string comparison is transitive. -/
theorem charListLe_trans : ∀ a b c : List Char,
    charListLe a b = true → charListLe b c = true → charListLe a c = true := by
  intro a
  induction a with
  | nil => intro b c _ _; rfl
  | cons x xs ih =>
    intro b c hab hbc
    cases b with
    | nil => simp [charListLe] at hab
    | cons y ys =>
      cases c with
      | nil => simp [charListLe] at hbc
      | cons z zs =>
        simp only [charListLe] at hab hbc ⊢
        rcases lt_trichotomy x y with h1 | h1 | h1
        · rcases lt_trichotomy y z with h2 | h2 | h2
          · rw [if_pos (lt_trans h1 h2)]
          · subst h2
            rw [if_pos h1]
          · rw [if_neg (lt_asymm h2), if_pos h2] at hbc
            simp at hbc
        · subst h1
          rw [if_neg (lt_irrefl x), if_neg (lt_irrefl x)] at hab
          rcases lt_trichotomy x z with h2 | h2 | h2
          · rw [if_pos h2]
          · subst h2
            rw [if_neg (lt_irrefl x), if_neg (lt_irrefl x)] at hbc ⊢
            exact ih ys zs hab hbc
          · rw [if_neg (lt_asymm h2), if_pos h2] at hbc
            simp at hbc
        · rw [if_neg (lt_asymm h1), if_pos h1] at hab
          simp at hab

/-- Inserting into a list sorted by a total transitive relation keeps it
sorted. -/
theorem pairwise_orderedInsert {α : Type} (r : α → α → Prop) [DecidableRel r]
    (htot : ∀ a b, r a b ∨ r b a) (htrans : ∀ a b c, r a b → r b c → r a c)
    (a : α) (l : List α) (hl : l.Pairwise r) :
    (List.orderedInsert r a l).Pairwise r := by
  induction l with
  | nil => simp
  | cons b t ih =>
    rw [List.orderedInsert]
    split_ifs with hab
    · refine List.Pairwise.cons ?_ hl
      intro x hx
      rcases List.mem_cons.mp hx with rfl | hxt
      · exact hab
      · exact htrans a b x hab ((List.pairwise_cons.mp hl).1 x hxt)
    · refine List.Pairwise.cons ?_ (ih (List.pairwise_cons.mp hl).2)
      intro x hx
      rcases (List.mem_orderedInsert r).mp hx with heq | hxt
      · rw [heq]
        rcases htot a b with h | h
        · exact absurd h hab
        · exact h
      · exact (List.pairwise_cons.mp hl).1 x hxt

/-- Insertion sort by a total transitive relation produces a pairwise
sorted list; this is the specification of Python `sorted` used by
`create_manifest_file`. -/
theorem pairwise_insertionSort {α : Type} (r : α → α → Prop) [DecidableRel r]
    (htot : ∀ a b, r a b ∨ r b a) (htrans : ∀ a b c, r a b → r b c → r a c)
    (l : List α) : (List.insertionSort r l).Pairwise r := by
  induction l with
  | nil => simp
  | cons a t ih =>
    rw [List.insertionSort]
    exact pairwise_orderedInsert r htot htrans a _ ih

/-- Two permuted lists that are both strictly sorted under an injective
numeric key are equal: the sorted arrangement of a set of records with
distinct keys is unique. -/
theorem eq_of_perm_of_pairwise_key_lt {α : Type} (key : α → Nat) :
    ∀ l1 l2 : List α, l1.Perm l2
      → l1.Pairwise (fun x y => key x < key y)
      → l2.Pairwise (fun x y => key x < key y) → l1 = l2 := by
  intro l1
  induction l1 with
  | nil =>
    intro l2 hp _ _
    exact (hp.symm.eq_nil).symm
  | cons a t ih =>
    intro l2 hp h1 h2
    cases l2 with
    | nil =>
      have := hp.eq_nil
      simp at this
    | cons b t2 =>
      have hab : a = b := by
        by_contra hne
        have hbmem : b ∈ a :: t := hp.mem_iff.mpr (by simp)
        have hamem : a ∈ b :: t2 := hp.mem_iff.mp (by simp)
        have hbt : b ∈ t := by
          rcases List.mem_cons.mp hbmem with h | h
          · exact absurd h.symm hne
          · exact h
        have hat : a ∈ t2 := by
          rcases List.mem_cons.mp hamem with h | h
          · exact absurd h hne
          · exact h
        have k1 : key a < key b := (List.pairwise_cons.mp h1).1 b hbt
        have k2 : key b < key a := (List.pairwise_cons.mp h2).1 a hat
        omega
      subst hab
      rw [ih t2 hp.cons_inv (List.pairwise_cons.mp h1).2 (List.pairwise_cons.mp h2).2]

/-- C9: segment names are the sequence number zero-padded to four
digits, so for sequence numbers 1..9999 Python string comparison of
names agrees with numeric comparison; consequently sorting by name - as
`create_manifest_file` does - arranges any collection of sequence
numbers within the 1000-segment limit in ascending numeric order. -/
theorem c9_names_sort_as_sequence (a b : Nat) (ha1 : 1 ≤ a) (ha2 : a ≤ 9999)
    (hb1 : 1 ≤ b) (hb2 : b ≤ 9999) (seqs : List Nat)
    (hseqs : ∀ s ∈ seqs, 1 ≤ s ∧ s ≤ 1000) :
    ((charListLt (pad4 a) (pad4 b) = true) ↔ a < b)
    ∧ (List.insertionSort (fun x y => charListLe (pad4 x) (pad4 y) = true)
        seqs).Pairwise (· ≤ ·) := by
  constructor
  · exact charListLt_pad4_iff (by omega) (by omega)
  · have hsorted := pairwise_insertionSort
      (fun x y : Nat => charListLe (pad4 x) (pad4 y) = true)
      (fun x y => charListLe_total (pad4 x) (pad4 y))
      (fun x y z hxy hyz => charListLe_trans _ _ _ hxy hyz)
      seqs
    have hperm := List.perm_insertionSort
      (fun x y : Nat => charListLe (pad4 x) (pad4 y) = true) seqs
    refine hsorted.imp_of_mem ?_
    intro x y hx hy hr
    have hxb := hseqs x (hperm.mem_iff.mp hx)
    have hyb := hseqs y (hperm.mem_iff.mp hy)
    exact (charListLe_pad4_iff (by omega) (by omega)).mp hr

/-- Witness for C9 at names 0003 and 0007 and the completion order
2, 1, 3. -/
theorem c9_names_sort_as_sequence_witness :
    ((charListLt (pad4 3) (pad4 7) = true) ↔ 3 < 7)
    ∧ (List.insertionSort (fun x y => charListLe (pad4 x) (pad4 y) = true)
        [2, 1, 3]).Pairwise (· ≤ ·) :=
  c9_names_sort_as_sequence 3 7 (by decide) (by decide) (by decide) (by decide)
    [2, 1, 3] (by decide)

/-- The entry built from the cache line of record `r` carries the
zero-padded name, the joined path, the checksum, and the size string
with the trailing newline. -/
theorem create_manifest_entry_logLine (r : RecoveryRecord) (container : List Char)
    (hd : ':' ∉ r.dest) (he : ':' ∉ r.etag) (hs : ':' ∉ r.size) :
    create_manifest_entry (logLine r) container = manifestEntryN container r := by
  simp only [create_manifest_entry, splitOnColon_logLine r hd he hs, manifestEntryN]
  rfl

/-- Records with pairwise distinct sequence numbers sort by sequence
into a strictly increasing list. -/
theorem pairwise_seq_lt_sorted (records : List RecoveryRecord)
    (hnd : (records.map RecoveryRecord.seq).Nodup) :
    (List.insertionSort (fun x y : RecoveryRecord => x.seq ≤ y.seq) records).Pairwise
      (fun x y => x.seq < y.seq) := by
  have hsorted := pairwise_insertionSort (fun x y : RecoveryRecord => x.seq ≤ y.seq)
    (fun a b => Nat.le_total a.seq b.seq)
    (fun a b c h1 h2 => le_trans h1 h2) records
  have hnd2 : ((List.insertionSort (fun x y : RecoveryRecord => x.seq ≤ y.seq)
      records).map RecoveryRecord.seq).Nodup :=
    ((List.perm_insertionSort _ records).map RecoveryRecord.seq).symm.nodup hnd
  have hne2 := List.pairwise_map.mp hnd2
  exact (hsorted.and hne2).imp (fun h => lt_of_le_of_ne h.1 h.2)

/-- Canonical form of the assembler output: for a recovery log holding
exactly the sequence numbers 1..total (in any order), the manifest is
the records sorted by sequence number, each mapped to its entry. -/
theorem create_manifest_file_canonical (records : List RecoveryRecord) (total : Nat)
    (container : List Char)
    (hseqs : (records.map RecoveryRecord.seq).Perm (List.range' 1 total))
    (htot : total ≤ 9999)
    (hfields : ∀ r ∈ records, ':' ∉ r.dest ∧ ':' ∉ r.etag ∧ ':' ∉ r.size) :
    create_manifest_file (records.map logLine) container
      = (List.insertionSort (fun x y : RecoveryRecord => x.seq ≤ y.seq) records).map
          (manifestEntryOf container) := by
  have hmemb : ∀ r ∈ records, 1 ≤ r.seq ∧ r.seq ≤ total := by
    intro r hr
    have hmem : r.seq ∈ List.range' 1 total :=
      hseqs.mem_iff.mp (List.mem_map_of_mem _ hr)
    rcases List.mem_range'.mp hmem with ⟨i, hi, hei⟩
    omega
  have hnd : (records.map RecoveryRecord.seq).Nodup :=
    hseqs.symm.nodup (List.nodup_range' 1 total)
  have hmap : (records.map logLine).map (fun line => create_manifest_entry line container)
      = records.map (manifestEntryN container) := by
    rw [List.map_map]
    apply List.map_congr_left
    intro r hr
    rcases hfields r hr with ⟨hd, he, hs⟩
    exact create_manifest_entry_logLine r container hd he hs
  simp only [create_manifest_file]
  rw [hmap]
  have hrhs : (List.insertionSort (fun x y : RecoveryRecord => x.seq ≤ y.seq)
        records).map (manifestEntryOf container)
      = ((List.insertionSort (fun x y : RecoveryRecord => x.seq ≤ y.seq) records).map
          (manifestEntryN container)).map dropName := by
    rw [List.map_map]
    rfl
  rw [hrhs]
  apply congrArg
  apply eq_of_perm_of_pairwise_key_lt (fun e => pyInt e.name)
  · have p1 := List.perm_insertionSort
      (fun a b : ManifestEntryN => charListLe a.name b.name = true)
      (records.map (manifestEntryN container))
    have p2 := (List.perm_insertionSort
      (fun x y : RecoveryRecord => x.seq ≤ y.seq) records).map (manifestEntryN container)
    exact p1.trans p2.symm
  · have hsorted := pairwise_insertionSort
      (fun a b : ManifestEntryN => charListLe a.name b.name = true)
      (fun a b => charListLe_total a.name b.name)
      (fun a b c h1 h2 => charListLe_trans _ _ _ h1 h2)
      (records.map (manifestEntryN container))
    have hmemE : ∀ e ∈ List.insertionSort
        (fun a b : ManifestEntryN => charListLe a.name b.name = true)
        (records.map (manifestEntryN container)),
        ∃ r ∈ records, e = manifestEntryN container r := by
      intro e he
      have hme : e ∈ records.map (manifestEntryN container) :=
        (List.perm_insertionSort _ _).mem_iff.mp he
      rcases List.mem_map.mp hme with ⟨r, hr, hre⟩
      exact ⟨r, hr, hre.symm⟩
    have hkeys : (records.map (manifestEntryN container)).map (fun e => pyInt e.name)
        = records.map RecoveryRecord.seq := by
      rw [List.map_map]
      apply List.map_congr_left
      intro r hr
      have hb := hmemb r hr
      show pyInt (manifestEntryN container r).name = r.seq
      simp only [manifestEntryN]
      exact pyInt_pad4 (by omega)
    have hknd : ((List.insertionSort
        (fun a b : ManifestEntryN => charListLe a.name b.name = true)
        (records.map (manifestEntryN container))).map (fun e => pyInt e.name)).Nodup := by
      have hp := (List.perm_insertionSort
        (fun a b : ManifestEntryN => charListLe a.name b.name = true)
        (records.map (manifestEntryN container))).map (fun e : ManifestEntryN => pyInt e.name)
      apply hp.symm.nodup
      rw [hkeys]
      exact hnd
    have hne := List.pairwise_map.mp hknd
    refine (hsorted.and hne).imp_of_mem ?_
    rintro e1 e2 he1 he2 ⟨hname, hkne⟩
    rcases hmemE e1 he1 with ⟨r1, hr1, rfl⟩
    rcases hmemE e2 he2 with ⟨r2, hr2, rfl⟩
    have hb1 := hmemb r1 hr1
    have hb2 := hmemb r2 hr2
    simp only [manifestEntryN] at hname hkne ⊢
    rw [pyInt_pad4 (by omega : r1.seq < 10000), pyInt_pad4 (by omega : r2.seq < 10000)]
    rw [pyInt_pad4 (by omega : r1.seq < 10000), pyInt_pad4 (by omega : r2.seq < 10000)] at hkne
    have hle := (charListLe_pad4_iff (by omega) (by omega)).mp hname
    omega
  · rw [List.pairwise_map]
    have hlt := pairwise_seq_lt_sorted records hnd
    refine hlt.imp_of_mem ?_
    intro r1 r2 hr1 hr2 hlt12
    have hb1 := hmemb r1 ((List.perm_insertionSort _ records).mem_iff.mp hr1)
    have hb2 := hmemb r2 ((List.perm_insertionSort _ records).mem_iff.mp hr2)
    show pyInt (manifestEntryN container r1).name < pyInt (manifestEntryN container r2).name
    simp only [manifestEntryN]
    rw [pyInt_pad4 (by omega), pyInt_pad4 (by omega)]
    exact hlt12

/-- C2: for a recovery log holding exactly one record per sequence
number 1..total, the assembled manifest has exactly `total` entries, is
the sequence-sorted image of the records (hence strictly ascending with
no duplicates), the sorted sequence numbers are exactly 1..total (no
gaps), and the output is the same for any permutation of the log lines,
i.e. independent of worker completion order. -/
theorem c2_manifest_complete_ordered (records records2 : List RecoveryRecord)
    (total : Nat) (container : List Char)
    (hseqs : (records.map RecoveryRecord.seq).Perm (List.range' 1 total))
    (htot : total ≤ 9999)
    (hfields : ∀ r ∈ records, ':' ∉ r.dest ∧ ':' ∉ r.etag ∧ ':' ∉ r.size)
    (hperm2 : records2.Perm records) :
    (create_manifest_file (records.map logLine) container).length = total
    ∧ create_manifest_file (records.map logLine) container
        = (List.insertionSort (fun x y : RecoveryRecord => x.seq ≤ y.seq) records).map
            (manifestEntryOf container)
    ∧ (List.insertionSort (fun x y : RecoveryRecord => x.seq ≤ y.seq) records).map
        RecoveryRecord.seq = List.range' 1 total
    ∧ create_manifest_file (records2.map logLine) container
        = create_manifest_file (records.map logLine) container := by
  have hcan := create_manifest_file_canonical records total container hseqs htot hfields
  have hnd : (records.map RecoveryRecord.seq).Nodup :=
    hseqs.symm.nodup (List.nodup_range' 1 total)
  have hlenrec : records.length = total := by
    have h := hseqs.length_eq
    simpa using h
  refine ⟨?_, hcan, ?_, ?_⟩
  · rw [hcan, List.length_map, (List.perm_insertionSort _ records).length_eq, hlenrec]
  · apply eq_of_perm_of_pairwise_key_lt (fun n : Nat => n)
    · exact ((List.perm_insertionSort _ records).map _).trans hseqs
    · rw [List.pairwise_map]
      exact pairwise_seq_lt_sorted records hnd
    · exact List.pairwise_lt_range' 1 total
  · have hseqs2 : (records2.map RecoveryRecord.seq).Perm (List.range' 1 total) :=
      (hperm2.map _).trans hseqs
    have hfields2 : ∀ r ∈ records2, ':' ∉ r.dest ∧ ':' ∉ r.etag ∧ ':' ∉ r.size :=
      fun r hr => hfields r (hperm2.mem_iff.mp hr)
    have hcan2 := create_manifest_file_canonical records2 total container hseqs2 htot hfields2
    rw [hcan, hcan2]
    apply congrArg
    have hnd2 : (records2.map RecoveryRecord.seq).Nodup :=
      hseqs2.symm.nodup (List.nodup_range' 1 total)
    apply eq_of_perm_of_pairwise_key_lt (fun r : RecoveryRecord => r.seq)
    · exact (List.perm_insertionSort _ records2).trans
        (hperm2.trans (List.perm_insertionSort _ records).symm)
    · exact pairwise_seq_lt_sorted records2 hnd2
    · exact pairwise_seq_lt_sorted records hnd

/-- Witness for C2: a two-record log appended in completion order 2, 1,
and its reversal, both assembling to the manifest for 1, 2. -/
theorem c2_manifest_complete_ordered_witness :
    (create_manifest_file
        ([RecoveryRecord.mk 2 ("f_segments/0002").toList ("bb").toList ("9").toList,
          RecoveryRecord.mk 1 ("f_segments/0001").toList ("aa").toList ("8").toList].map
          logLine) ("c").toList).length = 2
    ∧ create_manifest_file
        ([RecoveryRecord.mk 2 ("f_segments/0002").toList ("bb").toList ("9").toList,
          RecoveryRecord.mk 1 ("f_segments/0001").toList ("aa").toList ("8").toList].map
          logLine) ("c").toList
        = (List.insertionSort (fun x y : RecoveryRecord => x.seq ≤ y.seq)
            [RecoveryRecord.mk 2 ("f_segments/0002").toList ("bb").toList ("9").toList,
             RecoveryRecord.mk 1 ("f_segments/0001").toList ("aa").toList ("8").toList]).map
            (manifestEntryOf ("c").toList)
    ∧ (List.insertionSort (fun x y : RecoveryRecord => x.seq ≤ y.seq)
        [RecoveryRecord.mk 2 ("f_segments/0002").toList ("bb").toList ("9").toList,
         RecoveryRecord.mk 1 ("f_segments/0001").toList ("aa").toList ("8").toList]).map
        RecoveryRecord.seq = List.range' 1 2
    ∧ create_manifest_file
        ([RecoveryRecord.mk 1 ("f_segments/0001").toList ("aa").toList ("8").toList,
          RecoveryRecord.mk 2 ("f_segments/0002").toList ("bb").toList ("9").toList].map
          logLine) ("c").toList
        = create_manifest_file
            ([RecoveryRecord.mk 2 ("f_segments/0002").toList ("bb").toList ("9").toList,
              RecoveryRecord.mk 1 ("f_segments/0001").toList ("aa").toList ("8").toList].map
              logLine) ("c").toList :=
  c2_manifest_complete_ordered
    [RecoveryRecord.mk 2 ("f_segments/0002").toList ("bb").toList ("9").toList,
     RecoveryRecord.mk 1 ("f_segments/0001").toList ("aa").toList ("8").toList]
    [RecoveryRecord.mk 1 ("f_segments/0001").toList ("aa").toList ("8").toList,
     RecoveryRecord.mk 2 ("f_segments/0002").toList ("bb").toList ("9").toList]
    2 ("c").toList (by decide) (by decide) (by decide) (by decide)

/-- C10: the `size_bytes` field of a manifest entry is the fourth
colon-separated field of the recovery-log line taken verbatim as a
string - the stored decimal size with the line's trailing newline still
attached; it is never parsed to an integer. -/
theorem c10_size_bytes_verbatim (r : RecoveryRecord) (container : List Char)
    (hd : ':' ∉ r.dest) (he : ':' ∉ r.etag) (hs : ':' ∉ r.size) :
    (create_manifest_entry (logLine r) container).size_bytes = r.size ++ ['\n']
    ∧ (splitOnColon (logLine r)).getD 3 [] = r.size ++ ['\n'] := by
  constructor
  · rw [create_manifest_entry_logLine r container hd he hs]
    rfl
  · rw [splitOnColon_logLine r hd he hs]
    rfl

/-- Witness for C10 at a concrete record of size 1048576 bytes. -/
theorem c10_size_bytes_verbatim_witness :
    (create_manifest_entry
        (logLine (RecoveryRecord.mk 1 ("f_segments/0001").toList ("aa").toList
          ("1048576").toList)) ("c").toList).size_bytes
      = ("1048576").toList ++ ['\n']
    ∧ (splitOnColon (logLine (RecoveryRecord.mk 1 ("f_segments/0001").toList
        ("aa").toList ("1048576").toList))).getD 3 []
      = ("1048576").toList ++ ['\n'] :=
  c10_size_bytes_verbatim
    (RecoveryRecord.mk 1 ("f_segments/0001").toList ("aa").toList ("1048576").toList)
    ("c").toList (by decide) (by decide) (by decide)

/-- The packaged planner honours the 1000-segment ceiling with the
smallest admissible segment size: when the requested size would exceed
1000 segments, the recomputed size keeps the recomputed total within the
limit, and every strictly smaller positive size would still exceed it.
This is the property the legacy slo_upload.py variant violates (see the
C3 theorem). -/
theorem check_segment_size_limit (F S : Nat) (hS : 1 ≤ S)
    (hbig : 1000 < cdiv F (S * 1048576)) :
    (check_segment_size F S).2.1 ≤ 1000
    ∧ (check_segment_size F S).2.1 = cdiv F ((check_segment_size F S).2.2 * 1048576)
    ∧ ∀ S2, 1 ≤ S2 → S2 < (check_segment_size F S).2.2 →
        1000 < cdiv F (S2 * 1048576) := by
  have hb20 : (0 : Nat) < 1048576 := by norm_num
  have hb1000 : (0 : Nat) < 1000 := by norm_num
  have hSb : 0 < S * 1048576 := by positivity
  have hFpos : 0 < F := by
    by_contra h0
    have hF0 : F = 0 := by omega
    subst hF0
    have : cdiv 0 (S * 1048576) = 0 := by
      unfold cdiv
      apply Nat.div_eq_of_lt
      omega
    omega
  simp only [check_segment_size, if_pos hbig]
  have h1 : cdiv F 1000 ≤ cdiv (cdiv F 1000) 1048576 * 1048576 :=
    (cdiv_le_iff hb20).mp (Nat.le_refl _)
  have hkey : F ≤ cdiv (cdiv F 1000) 1048576 * 1048576 * 1000 :=
    (cdiv_le_iff hb1000).mp h1
  have hs2pos : 1 ≤ cdiv (cdiv F 1000) 1048576 := by
    by_contra h
    have h0 : cdiv (cdiv F 1000) 1048576 ≤ 0 := by omega
    have h0b : cdiv F 1000 ≤ 0 := by
      have := (cdiv_le_iff hb20).mp h0
      simpa using this
    have h0c : F ≤ 0 := by
      have := (cdiv_le_iff hb1000).mp h0b
      simpa using this
    omega
  have hs2b : 0 < cdiv (cdiv F 1000) 1048576 * 1048576 :=
    Nat.mul_pos (by omega) hb20
  refine ⟨?_, trivial, ?_⟩
  · apply (cdiv_le_iff hs2b).mpr
    rw [Nat.mul_comm 1000 (cdiv (cdiv F 1000) 1048576 * 1048576)]
    exact hkey
  · intro S2 hS2 hlt
    by_contra hc
    have hle : cdiv F (S2 * 1048576) ≤ 1000 := by omega
    have hS2b : 0 < S2 * 1048576 := Nat.mul_pos (by omega) hb20
    have e1 : F ≤ 1000 * (S2 * 1048576) := (cdiv_le_iff hS2b).mp hle
    rw [Nat.mul_comm 1000 (S2 * 1048576)] at e1
    have e2 : cdiv F 1000 ≤ S2 * 1048576 := (cdiv_le_iff hb1000).mpr e1
    have e3 : cdiv (cdiv F 1000) 1048576 ≤ S2 := (cdiv_le_iff hb20).mpr e2
    omega

end SLO
